import Mathlib

/-!
# Task manager: store and manager (`internal/tasks/tasks.go`)

A shallow embedding of the in-memory task store (`LocalStorage`) and of the
`Manager` layer above it, followed by the properties proved about them.

Modelling conventions.

* A Go `*Task` is an address: an index into the list `objs` of allocated
  `Task` objects.  An address at which nothing is allocated plays the part of
  the nil pointer: reading or writing a field through it panics.  Functions
  that dereference a pointer return `Option`, `none` being the panic.
* The Go map `tasks map[uint32]*Task` is an association list from keys to
  addresses, with `mapGet` (index expression), `mapSet` (assignment) and
  `mapDelete` (the `delete` built-in).
* `uint32` ids are natural numbers (no arithmetic is performed on them) and the
  `int`-backed `TaskStatus` is an integer; statements quantify over all of
  them, which covers the machine ranges.
* The value `rand.Uint32()` returns inside `Manager.NewTask` is an explicit
  argument of the embedded function.
* The mutex is not modelled: every method body runs as one sequential step.
-/

namespace Tasks

/-! ## Status -/

/-- Go: `type TaskStatus int`. -/
abbrev TaskStatus := Int

/-- Go: `TaskOngoing TaskStatus = iota`. -/
def TaskOngoing : TaskStatus := 0

/-- Go: second constant of the `iota` block. -/
def TaskCompleted : TaskStatus := 1

/-- Go: third constant of the `iota` block. -/
def TaskClosed : TaskStatus := 2

/-- Go: `IsValidStatus`, a switch over the three constants. -/
def IsValidStatus (status : Int) : Bool :=
  if status = TaskOngoing ∨ status = TaskCompleted ∨ status = TaskClosed then true else false

/-- Go: `taskStatusName`, the map literal; a missing key reads as `none`. -/
def taskStatusName (ts : TaskStatus) : Option String :=
  if ts = TaskOngoing then some "ongoing"
  else if ts = TaskCompleted then some "completed"
  else if ts = TaskClosed then some "closed"
  else none

/-- Go: `TaskStatus.String`; indexing a map at a missing key gives the zero
value of the element type, the empty string. -/
def TaskStatus.String (ts : TaskStatus) : String :=
  (taskStatusName ts).getD ""

/-! ## Tasks and errors -/

/-- Go: `type Task struct`. -/
structure Task where
  Id : Nat
  Title : String
  Status : TaskStatus
  deriving DecidableEq, Repr

/-- Go: `type InvalidIdError struct`. -/
structure InvalidIdError where
  InvalidId : Nat
  deriving DecidableEq, Repr

/-- Go: `(*InvalidIdError).Error`, `Sprintf` with the verb `%d`. -/
def InvalidIdError.Error (e : InvalidIdError) : String :=
  "No task found with id: " ++ toString e.InvalidId ++ "\n"

/-- The dynamic values of Go's `error` interface that this package produces:
a `*InvalidIdError`, or the string-only error that `fmt.Errorf` builds when its
format has no `%w` verb. -/
inductive GoError where
  | invalidId (e : InvalidIdError)
  | errorString (s : String)
  deriving DecidableEq, Repr

/-- The `Error()` method of an error value. -/
def GoError.Error : GoError → String
  | .invalidId e => e.Error
  | .errorString s => s

/-- Go: `fmt.Errorf(ctx + ": %v\n", err)`.  The verb `%v` formats `err` by its
`Error()` text; the result keeps no reference to `err`. -/
def Errorf (ctx : String) (err : GoError) : GoError :=
  .errorString (ctx ++ ": " ++ err.Error ++ "\n")

/-- Go: `errors.As(err, &target)` with `target` of type `*InvalidIdError`.
An error built by `fmt.Errorf` without `%w` has no `Unwrap` method, so the
chain that is searched is the error value alone. -/
def GoError.asInvalidIdError : GoError → Option InvalidIdError
  | .invalidId e => some e
  | .errorString _ => none

/-! ## The Go map -/

/-- Go: `m[k]` in the two-result form; `none` is `ok == false`. -/
def mapGet : List (Nat × Nat) → Nat → Option Nat
  | [], _ => none
  | (k', v) :: m, k => if k' = k then some v else mapGet m k

/-- Go: `delete(m, k)`. -/
def mapDelete : List (Nat × Nat) → Nat → List (Nat × Nat)
  | [], _ => []
  | (k', v) :: m, k => if k' = k then mapDelete m k else (k', v) :: mapDelete m k

/-- Go: `m[k] = v`. -/
def mapSet (m : List (Nat × Nat)) (k v : Nat) : List (Nat × Nat) :=
  (k, v) :: mapDelete m k

/-! ## Store -/

/-- Go: `type LocalStorage struct`, with the `Task` objects that pointers
refer to.  `objs` is the memory holding every allocated `Task`; `tasks` is the
field `tasks map[uint32]*Task`. -/
structure LocalStorage where
  objs : List Task
  tasks : List (Nat × Nat)
  deriving DecidableEq, Repr

/-- Go: `newStorage`, an empty map (and no task allocated yet). -/
def newStorage : LocalStorage := { objs := [], tasks := [] }

/-- Go: `(*LocalStorage).Get`.  Returns the stored pointer (`none` is nil) and
the error (`none` is nil). -/
def LocalStorage.Get (storage : LocalStorage) (id : Nat) : Option Nat × Option GoError :=
  match mapGet storage.tasks id with
  | none => (none, some (.invalidId { InvalidId := id }))
  | some pTask => (some pTask, none)

/-- Go: `(*LocalStorage).GetAll`, one pointer per map entry. -/
def LocalStorage.GetAll (storage : LocalStorage) : List Nat × Option GoError :=
  (storage.tasks.map Prod.snd, none)

/-- Go: `(*LocalStorage).Add`.  `task` is the pointer passed in; reading
`task.Id` through an unallocated pointer panics. -/
def LocalStorage.Add (storage : LocalStorage) (task : Nat) :
    Option (LocalStorage × Option GoError) :=
  match storage.objs[task]? with
  | none => none
  | some t =>
    match mapGet storage.tasks t.Id with
    | some _ => some (storage, some (.errorString "Duplicate id\n"))
    | none => some ({ storage with tasks := mapSet storage.tasks t.Id task }, none)

/-- Go: `(*LocalStorage).Delete`. -/
def LocalStorage.Delete (storage : LocalStorage) (id : Nat) :
    LocalStorage × Option GoError :=
  match mapGet storage.tasks id with
  | none => (storage, some (.invalidId { InvalidId := id }))
  | some _ => ({ storage with tasks := mapDelete storage.tasks id }, none)

/-- Go: `(*LocalStorage).Update`.  The two field writes go through the stored
pointer, so the object is changed in place; writing through an unallocated
pointer panics. -/
def LocalStorage.Update (storage : LocalStorage) (id : Nat) (title : String)
    (status : TaskStatus) : Option (LocalStorage × Option GoError) :=
  match mapGet storage.tasks id with
  | none => some (storage, some (.invalidId { InvalidId := id }))
  | some task =>
    match storage.objs[task]? with
    | none => none
    | some t =>
      some ({ storage with
                objs := storage.objs.set task { t with Title := title, Status := status } },
            none)

/-! ## Manager -/

/-- Go: `type Manager struct`; the only `TaskStorage` in the package is
`LocalStorage`. -/
structure Manager where
  Storage : LocalStorage
  deriving DecidableEq, Repr

/-- Go: `NewManager` on a fresh process: the storage is `newStorage()`. -/
def NewManager : Manager := { Storage := newStorage }

/-- Go: `(*Manager).NewTask`.  `id` is the value of `rand.Uint32()`.  The task
literal is allocated at the first free address before `Add` is called. -/
def Manager.NewTask (m : Manager) (title : String) (id : Nat) :
    Option (Manager × Nat × Option GoError) :=
  if title = "" then
    some (m, 0, some (.errorString "Empty title\n"))
  else
    let task := m.Storage.objs.length
    let st : LocalStorage :=
      { m.Storage with
          objs := m.Storage.objs ++ [{ Id := id, Title := title, Status := TaskOngoing }] }
    match st.Add task with
    | none => none
    | some (st', some err) =>
      some ({ Storage := st' }, 0, some (Errorf "Error creating new task" err))
    | some (st', none) => some ({ Storage := st' }, id, none)

/-- Go: `(*Manager).GetTask`. -/
def Manager.GetTask (m : Manager) (id : Nat) : Option Nat × Option GoError :=
  match m.Storage.Get id with
  | (task, some err) => (task, some (Errorf "Error retrieving task" err))
  | (task, none) => (task, none)

/-- Go: `(*Manager).DeleteTask`. -/
def Manager.DeleteTask (m : Manager) (id : Nat) : Manager × Option GoError :=
  match m.Storage.Delete id with
  | (st, some err) => ({ Storage := st }, some (Errorf "Error deleting task" err))
  | (st, none) => ({ Storage := st }, none)

/-- Go: `(*Manager).UpdateTask`. -/
def Manager.UpdateTask (m : Manager) (id : Nat) (title : String) (status : TaskStatus) :
    Option (Manager × Option GoError) :=
  if title = "" then
    some (m, some (.errorString "Empty title\n"))
  else
    match m.Storage.Update id title status with
    | none => none
    | some (st, some err) => some ({ Storage := st }, some (Errorf "Error updating task" err))
    | some (st, none) => some ({ Storage := st }, none)

/-- Go: `(*Manager).GetAllTasks`. -/
def Manager.GetAllTasks (m : Manager) : List Nat × Option GoError :=
  match m.Storage.GetAll with
  | (tasks, some err) => (tasks, some (Errorf "Error getting all tasks" err))
  | (tasks, none) => (tasks, none)

/-! ## Sequences of manager calls -/

/-- One call of a state-changing or reading method of `Manager`. -/
inductive ManagerOp where
  | NewTask (title : String) (id : Nat)
  | GetTask (id : Nat)
  | DeleteTask (id : Nat)
  | UpdateTask (id : Nat) (title : String) (status : TaskStatus)
  | GetAllTasks
  deriving DecidableEq, Repr

/-- The manager after one call (`none`: the call panicked).  The two reading
methods contain no write. -/
def Manager.step (m : Manager) : ManagerOp → Option Manager
  | .NewTask title id => (m.NewTask title id).map (fun r => r.1)
  | .GetTask _ => some m
  | .DeleteTask id => some (m.DeleteTask id).1
  | .UpdateTask id title status => (m.UpdateTask id title status).map (fun r => r.1)
  | .GetAllTasks => some m

/-- The manager after a sequence of calls, first call first. -/
def Manager.run (m : Manager) : List ManagerOp → Option Manager
  | [] => some m
  | op :: ops => (m.step op).bind (fun m' => m'.run ops)

/-- States the manager of a fresh process can be brought to. -/
def Reachable (m : Manager) : Prop :=
  ∃ ops : List ManagerOp, NewManager.run ops = some m

/-- The tasks in the store: for each map entry, the object its pointer refers
to. -/
def LocalStorage.liveTasks (storage : LocalStorage) : List Task :=
  storage.tasks.filterMap (fun e => storage.objs[e.2]?)

/-- One call of any method of the store or of the manager, with its
arguments.  `Add` takes the pointer passed in, `NewTask` the generated id. -/
inductive Call where
  | Get (id : Nat)
  | GetAll
  | Add (task : Nat)
  | Update (id : Nat) (title : String) (status : TaskStatus)
  | Delete (id : Nat)
  | NewTask (title : String) (id : Nat)
  | GetTask (id : Nat)
  | UpdateTask (id : Nat) (title : String) (status : TaskStatus)
  | DeleteTask (id : Nat)
  | GetAllTasks
  deriving DecidableEq, Repr

/-- The state after a call together with the error the call returned (`none`
at the outside: the call panicked).  `Get`, `GetAll`, `GetTask` and
`GetAllTasks` contain no write, so the state after them is the state before. -/
def Call.exec (c : Call) (m : Manager) : Option (Manager × Option GoError) :=
  match c with
  | .Get id => some (m, (m.Storage.Get id).2)
  | .GetAll => some (m, m.Storage.GetAll.2)
  | .Add task => (m.Storage.Add task).map (fun r => ({ Storage := r.1 }, r.2))
  | .Update id title status =>
    (m.Storage.Update id title status).map (fun r => ({ Storage := r.1 }, r.2))
  | .Delete id => some ({ Storage := (m.Storage.Delete id).1 }, (m.Storage.Delete id).2)
  | .NewTask title id => (m.NewTask title id).map (fun r => (r.1, r.2.2))
  | .GetTask id => some (m, (m.GetTask id).2)
  | .UpdateTask id title status => m.UpdateTask id title status
  | .DeleteTask id => some (m.DeleteTask id)
  | .GetAllTasks => some (m, m.GetAllTasks.2)

/-- The invariant of the store behind a manager: the keys of the map are
distinct, and every entry points at an allocated task whose `Id` is the key of
the entry and whose title is not empty. -/
def LocalStorage.Inv (storage : LocalStorage) : Prop :=
  (storage.tasks.map Prod.fst).Nodup ∧
  ∀ k p, (k, p) ∈ storage.tasks →
    ∃ t, storage.objs[p]? = some t ∧ t.Id = k ∧ t.Title ≠ ""

/-- The check the HTTP handler `updateTask` (`cmd/server/main.go`) makes on the
parsed status before it calls `Manager.UpdateTask`; the other calls carry no
status. -/
def ManagerOp.statusChecked : ManagerOp → Bool
  | .UpdateTask _ _ status => IsValidStatus status
  | _ => true

/-- Every map entry points at an allocated task whose status is one of the
three constants. -/
def LocalStorage.StatusInv (storage : LocalStorage) : Prop :=
  ∀ k p, (k, p) ∈ storage.tasks →
    ∃ t, storage.objs[p]? = some t ∧ IsValidStatus t.Status = true

/-! ## Facts about the map operations -/

theorem mapGet_mapDelete_self (m : List (Nat × Nat)) (k : Nat) :
    mapGet (mapDelete m k) k = none := by
  induction m with
  | nil => rfl
  | cons e m ih =>
    obtain ⟨k0, v⟩ := e
    by_cases h : k0 = k
    · simp [mapDelete, h, ih]
    · simp [mapDelete, mapGet, h, ih]

theorem mapGet_mapDelete_ne (m : List (Nat × Nat)) {k k' : Nat} (hk : k' ≠ k) :
    mapGet (mapDelete m k) k' = mapGet m k' := by
  induction m with
  | nil => rfl
  | cons e m ih =>
    obtain ⟨k0, v⟩ := e
    by_cases h : k0 = k
    · subst h
      have h' : ¬ k0 = k' := fun h2 => hk h2.symm
      simp [mapDelete, mapGet, h', ih]
    · by_cases h2 : k0 = k'
      · subst h2
        simp [mapDelete, mapGet, h]
      · simp [mapDelete, mapGet, h, h2, ih]

theorem mapGet_mapSet_self (m : List (Nat × Nat)) (k v : Nat) :
    mapGet (mapSet m k v) k = some v := by
  simp [mapSet, mapGet]

theorem mapGet_mapSet_ne (m : List (Nat × Nat)) {k k' : Nat} (v : Nat) (hk : k' ≠ k) :
    mapGet (mapSet m k v) k' = mapGet m k' := by
  have h : k ≠ k' := fun h => hk h.symm
  simp [mapSet, mapGet, h, mapGet_mapDelete_ne m hk]

theorem mem_of_mapGet_eq_some {m : List (Nat × Nat)} {k v : Nat}
    (h : mapGet m k = some v) : (k, v) ∈ m := by
  induction m with
  | nil => simp [mapGet] at h
  | cons e m ih =>
    obtain ⟨k0, v0⟩ := e
    by_cases h0 : k0 = k
    · simp [mapGet, h0] at h
      simp [h0, h]
    · simp [mapGet, h0] at h
      exact List.mem_cons_of_mem _ (ih h)

theorem mapGet_ne_none_of_mem {m : List (Nat × Nat)} {k v : Nat}
    (h : (k, v) ∈ m) : mapGet m k ≠ none := by
  induction m with
  | nil => simp at h
  | cons e m ih =>
    obtain ⟨k0, v0⟩ := e
    by_cases h0 : k0 = k
    · simp [mapGet, h0]
    · rcases List.mem_cons.mp h with h1 | h1
      · exact absurd (congrArg Prod.fst h1).symm h0
      · simpa [mapGet, h0] using ih h1

theorem mem_mapDelete {m : List (Nat × Nat)} {k : Nat} {e : Nat × Nat} :
    e ∈ mapDelete m k ↔ e ∈ m ∧ e.1 ≠ k := by
  induction m with
  | nil => simp [mapDelete]
  | cons e0 m ih =>
    obtain ⟨k0, v⟩ := e0
    by_cases h : k0 = k
    · simp only [mapDelete, h, if_true, ih, List.mem_cons]
      constructor
      · rintro ⟨h1, h2⟩
        exact ⟨Or.inr h1, h2⟩
      · rintro ⟨h1 | h1, h2⟩
        · exact absurd (by rw [h1]) h2
        · exact ⟨h1, h2⟩
    · simp only [mapDelete, h, if_false, ih, List.mem_cons]
      constructor
      · rintro (h1 | ⟨h1, h2⟩)
        · exact ⟨Or.inl h1, by rw [h1]; exact h⟩
        · exact ⟨Or.inr h1, h2⟩
      · rintro ⟨h1 | h1, h2⟩
        · exact Or.inl h1
        · exact Or.inr ⟨h1, h2⟩

theorem mem_mapSet {m : List (Nat × Nat)} {k v : Nat} {e : Nat × Nat} :
    e ∈ mapSet m k v ↔ e = (k, v) ∨ (e ∈ m ∧ e.1 ≠ k) := by
  simp [mapSet, mem_mapDelete]

theorem mapDelete_sublist (m : List (Nat × Nat)) (k : Nat) :
    List.Sublist (mapDelete m k) m := by
  induction m with
  | nil => exact List.Sublist.slnil
  | cons e m ih =>
    obtain ⟨k0, v⟩ := e
    by_cases h : k0 = k
    · simpa [mapDelete, h] using List.Sublist.cons (k0, v) ih
    · simpa [mapDelete, h] using List.Sublist.cons₂ (k0, v) ih

theorem keys_mapDelete_nodup {m : List (Nat × Nat)} (k : Nat)
    (h : (m.map Prod.fst).Nodup) : ((mapDelete m k).map Prod.fst).Nodup :=
  List.Nodup.sublist (List.Sublist.map Prod.fst (mapDelete_sublist m k)) h

theorem not_mem_keys_mapDelete (m : List (Nat × Nat)) (k : Nat) :
    k ∉ (mapDelete m k).map Prod.fst := by
  intro h
  rcases List.mem_map.mp h with ⟨e, he, hk⟩
  exact (mem_mapDelete.mp he).2 hk

theorem keys_mapSet_nodup {m : List (Nat × Nat)} (k v : Nat)
    (h : (m.map Prod.fst).Nodup) : ((mapSet m k v).map Prod.fst).Nodup := by
  simp only [mapSet, List.map_cons]
  exact List.nodup_cons.mpr ⟨not_mem_keys_mapDelete m k, keys_mapDelete_nodup k h⟩

/-! ## The methods, case by case -/

theorem LocalStorage.Get_of_absent {storage : LocalStorage} {id : Nat}
    (h : mapGet storage.tasks id = none) :
    storage.Get id = (none, some (.invalidId { InvalidId := id })) := by
  simp [LocalStorage.Get, h]

theorem LocalStorage.Get_of_present {storage : LocalStorage} {id p : Nat}
    (h : mapGet storage.tasks id = some p) : storage.Get id = (some p, none) := by
  simp [LocalStorage.Get, h]

theorem LocalStorage.Delete_of_absent {storage : LocalStorage} {id : Nat}
    (h : mapGet storage.tasks id = none) :
    storage.Delete id = (storage, some (.invalidId { InvalidId := id })) := by
  simp [LocalStorage.Delete, h]

theorem LocalStorage.Delete_of_present {storage : LocalStorage} {id p : Nat}
    (h : mapGet storage.tasks id = some p) :
    storage.Delete id = ({ storage with tasks := mapDelete storage.tasks id }, none) := by
  simp [LocalStorage.Delete, h]

theorem LocalStorage.Update_of_absent {storage : LocalStorage} {id : Nat}
    (title : String) (status : TaskStatus) (h : mapGet storage.tasks id = none) :
    storage.Update id title status = some (storage, some (.invalidId { InvalidId := id })) := by
  simp [LocalStorage.Update, h]

theorem LocalStorage.Update_of_present {storage : LocalStorage} {id p : Nat} {t : Task}
    (title : String) (status : TaskStatus) (h : mapGet storage.tasks id = some p)
    (ht : storage.objs[p]? = some t) :
    storage.Update id title status =
      some ({ storage with
                objs := storage.objs.set p { t with Title := title, Status := status } },
            none) := by
  simp [LocalStorage.Update, h, ht]

theorem LocalStorage.Add_of_absent {storage : LocalStorage} {task : Nat} {t : Task}
    (ht : storage.objs[task]? = some t) (h : mapGet storage.tasks t.Id = none) :
    storage.Add task = some ({ storage with tasks := mapSet storage.tasks t.Id task }, none) := by
  simp [LocalStorage.Add, ht, h]

theorem LocalStorage.Add_of_present {storage : LocalStorage} {task p : Nat} {t : Task}
    (ht : storage.objs[task]? = some t) (h : mapGet storage.tasks t.Id = some p) :
    storage.Add task = some (storage, some (.errorString "Duplicate id\n")) := by
  simp [LocalStorage.Add, ht, h]

theorem Manager.NewTask_of_absent (m : Manager) {title : String} {id : Nat}
    (ht : title ≠ "") (h : mapGet m.Storage.tasks id = none) :
    m.NewTask title id =
      some ({ Storage :=
                { objs := m.Storage.objs ++ [{ Id := id, Title := title, Status := TaskOngoing }]
                  tasks := mapSet m.Storage.tasks id m.Storage.objs.length } },
            id, none) := by
  have hobj : (m.Storage.objs ++ [({ Id := id, Title := title, Status := TaskOngoing } : Task)])[
      m.Storage.objs.length]? = some { Id := id, Title := title, Status := TaskOngoing } := by
    simp
  simp [Manager.NewTask, ht, LocalStorage.Add, hobj, h]

theorem Manager.NewTask_of_present (m : Manager) {title : String} {id p : Nat}
    (ht : title ≠ "") (h : mapGet m.Storage.tasks id = some p) :
    m.NewTask title id =
      some ({ Storage :=
                { objs := m.Storage.objs ++ [{ Id := id, Title := title, Status := TaskOngoing }]
                  tasks := m.Storage.tasks } },
            0, some (Errorf "Error creating new task" (.errorString "Duplicate id\n"))) := by
  have hobj : (m.Storage.objs ++ [({ Id := id, Title := title, Status := TaskOngoing } : Task)])[
      m.Storage.objs.length]? = some { Id := id, Title := title, Status := TaskOngoing } := by
    simp
  simp [Manager.NewTask, ht, LocalStorage.Add, hobj, h]

/-! ## Contract of the manager and of the store -/

/-- C1. Create/get round trip: for every store state, every non-empty title `T`
and every generated id `r` that is not a key of the store, `NewTask T` succeeds
and returns `r`, and `GetTask r` afterwards succeeds and returns a pointer to a
task with `Id = r`, `Title = T` and `Status = TaskOngoing`. -/
theorem newTask_getTask_round_trip (m : Manager) (T : String) (r : Nat)
    (hT : T ≠ "") (hr : mapGet m.Storage.tasks r = none) :
    ∃ m' p, m.NewTask T r = some (m', r, none) ∧ m'.GetTask r = (some p, none) ∧
      m'.Storage.objs[p]? = some { Id := r, Title := T, Status := TaskOngoing } := by
  refine ⟨_, m.Storage.objs.length, Manager.NewTask_of_absent m hT hr, ?_, ?_⟩
  · simp [Manager.GetTask, LocalStorage.Get, mapGet_mapSet_self]
  · simp

theorem newTask_getTask_round_trip_witness :
    ∃ m' p, (Manager.mk ⟨[⟨5, "a", 1⟩], [(5, 0)]⟩).NewTask "write spec" 7 = some (m', 7, none) ∧
      m'.GetTask 7 = (some p, none) ∧
      m'.Storage.objs[p]? = some { Id := 7, Title := "write spec", Status := TaskOngoing } :=
  newTask_getTask_round_trip ⟨⟨[⟨5, "a", 1⟩], [(5, 0)]⟩⟩ "write spec" 7 (by decide) (by decide)

/-- C2. Update then get: when the store holds under key `X` a task whose `Id`
is `X`, then for every non-empty title `T2` and every status `S2`,
`UpdateTask X T2 S2` succeeds and `GetTask X` afterwards returns the same
pointer, now referring to a task with `Id = X`, `Title = T2`, `Status = S2`. -/
theorem updateTask_then_getTask (m : Manager) (X p : Nat) (t : Task) (T2 : String)
    (S2 : TaskStatus) (hX : mapGet m.Storage.tasks X = some p)
    (hp : m.Storage.objs[p]? = some t) (hid : t.Id = X) (hT : T2 ≠ "") :
    ∃ m', m.UpdateTask X T2 S2 = some (m', none) ∧ m'.GetTask X = (some p, none) ∧
      m'.Storage.objs[p]? = some { Id := X, Title := T2, Status := S2 } := by
  have hlt : p < m.Storage.objs.length := by
    rcases List.getElem?_eq_some.mp hp with ⟨h, _⟩
    exact h
  refine ⟨{ Storage := { m.Storage with
      objs := m.Storage.objs.set p { t with Title := T2, Status := S2 } } }, ?_, ?_, ?_⟩
  · simp [Manager.UpdateTask, hT, LocalStorage.Update_of_present T2 S2 hX hp]
  · simp [Manager.GetTask, LocalStorage.Get, hX]
  · simp [hlt, hid]

theorem updateTask_then_getTask_witness :
    ∃ m', (Manager.mk ⟨[⟨5, "a", 0⟩, ⟨9, "b", 2⟩], [(9, 1), (5, 0)]⟩).UpdateTask 9 "c" 1
        = some (m', none) ∧
      m'.GetTask 9 = (some 1, none) ∧
      m'.Storage.objs[1]? = some { Id := 9, Title := "c", Status := 1 } :=
  updateTask_then_getTask ⟨⟨[⟨5, "a", 0⟩, ⟨9, "b", 2⟩], [(9, 1), (5, 0)]⟩⟩ 9 1 ⟨9, "b", 2⟩ "c" 1
    (by decide) (by decide) (by decide) (by decide)

/-- C3 (as the code behaves). Delete finality: whenever `DeleteTask id`
succeeds, the key `id` is no longer in the store and the store's `Get id` fails
with the `InvalidIdError` for `id`; `GetTask id` afterwards fails too, with nil
task, and the error it returns is the text error made of "Error retrieving
task" and the message of that `InvalidIdError`: it carries the message only
and does not match `*InvalidIdError`. -/
theorem deleteTask_then_getTask_fails (m m' : Manager) (id : Nat)
    (h : m.DeleteTask id = (m', none)) :
    mapGet m'.Storage.tasks id = none ∧
      m'.Storage.Get id = (none, some (.invalidId { InvalidId := id })) ∧
      m'.GetTask id =
        (none, some (.errorString
          ("Error retrieving task: " ++ (InvalidIdError.mk id).Error ++ "\n"))) ∧
      (∃ e, (m'.GetTask id).2 = some e ∧ e.asInvalidIdError = none ∧
        e.Error = "Error retrieving task: " ++ (InvalidIdError.mk id).Error ++ "\n") := by
  have habs : mapGet m'.Storage.tasks id = none := by
    cases hg : mapGet m.Storage.tasks id with
    | none => simp [Manager.DeleteTask, LocalStorage.Delete, hg] at h
    | some p =>
      simp [Manager.DeleteTask, LocalStorage.Delete, hg] at h
      rw [← h]
      exact mapGet_mapDelete_self _ _
  have hget : m'.GetTask id =
      (none, some (.errorString
        ("Error retrieving task: " ++ (InvalidIdError.mk id).Error ++ "\n"))) := by
    simp [Manager.GetTask, LocalStorage.Get_of_absent habs, Errorf, GoError.Error]
  refine ⟨habs, LocalStorage.Get_of_absent habs, hget, ?_⟩
  rw [hget]
  exact ⟨_, rfl, rfl, rfl⟩

theorem deleteTask_then_getTask_fails_witness :
    mapGet (Manager.mk ⟨[⟨5, "a", 0⟩, ⟨9, "b", 2⟩], [(5, 0)]⟩).Storage.tasks 9 = none ∧
      (Manager.mk ⟨[⟨5, "a", 0⟩, ⟨9, "b", 2⟩], [(5, 0)]⟩).Storage.Get 9 =
        (none, some (.invalidId { InvalidId := 9 })) ∧
      (Manager.mk ⟨[⟨5, "a", 0⟩, ⟨9, "b", 2⟩], [(5, 0)]⟩).GetTask 9 =
        (none, some (.errorString
          ("Error retrieving task: " ++ (InvalidIdError.mk 9).Error ++ "\n"))) ∧
      (∃ e, ((Manager.mk ⟨[⟨5, "a", 0⟩, ⟨9, "b", 2⟩], [(5, 0)]⟩).GetTask 9).2 = some e ∧
        e.asInvalidIdError = none ∧
        e.Error = "Error retrieving task: " ++ (InvalidIdError.mk 9).Error ++ "\n") :=
  deleteTask_then_getTask_fails ⟨⟨[⟨5, "a", 0⟩, ⟨9, "b", 2⟩], [(9, 1), (5, 0)]⟩⟩ _ 9
    (by decide)

/-- C3, the claim as written, fails on the store holding tasks 5 and 9:
`DeleteTask 9` succeeds, and the error `GetTask 9` then returns is a text
error that does not match `*InvalidIdError`, although the store's own `Get 9`
returns the `InvalidIdError` for 9. -/
theorem deleteTask_getTask_kind_counterexample :
    (Manager.mk ⟨[⟨5, "a", 0⟩, ⟨9, "b", 2⟩], [(9, 1), (5, 0)]⟩).DeleteTask 9 =
      (⟨⟨[⟨5, "a", 0⟩, ⟨9, "b", 2⟩], [(5, 0)]⟩⟩, none) ∧
    (Manager.mk ⟨[⟨5, "a", 0⟩, ⟨9, "b", 2⟩], [(5, 0)]⟩).GetTask 9 =
      (none, some (.errorString "Error retrieving task: No task found with id: 9\n\n")) ∧
    (((Manager.mk ⟨[⟨5, "a", 0⟩, ⟨9, "b", 2⟩], [(5, 0)]⟩).GetTask 9).2.bind
      GoError.asInvalidIdError) = none ∧
    (((Manager.mk ⟨[⟨5, "a", 0⟩, ⟨9, "b", 2⟩], [(5, 0)]⟩).Storage.Get 9).2.bind
      GoError.asInvalidIdError) = some { InvalidId := 9 } := by
  decide

/-- C4. Empty-title rejection: for every store state, id and status,
`NewTask ""` and `UpdateTask id "" S` both fail with the "Empty title" error
(`NewTask` returning id 0) and hand back the state they were given. -/
theorem empty_title_rejected (m : Manager) (r id : Nat) (S : TaskStatus) :
    m.NewTask "" r = some (m, 0, some (.errorString "Empty title\n")) ∧
      m.UpdateTask id "" S = some (m, some (.errorString "Empty title\n")) := by
  simp [Manager.NewTask, Manager.UpdateTask]

/-- C5. Store-level unknown-id errors: `Get id`, `Update id title status` and
`Delete id` each return an error exactly when `id` is not a key of the store,
and any error they return is the `InvalidIdError` whose field is `id`. -/
theorem store_unknown_id_errors (storage : LocalStorage) (id : Nat) (title : String)
    (status : TaskStatus) :
    ((storage.Get id).2 ≠ none ↔ mapGet storage.tasks id = none) ∧
    (∀ e, (storage.Get id).2 = some e → e = .invalidId { InvalidId := id }) ∧
    ((∃ s' e, storage.Update id title status = some (s', some e)) ↔
      mapGet storage.tasks id = none) ∧
    (∀ s' e, storage.Update id title status = some (s', some e) →
      e = .invalidId { InvalidId := id }) ∧
    ((storage.Delete id).2 ≠ none ↔ mapGet storage.tasks id = none) ∧
    (∀ e, (storage.Delete id).2 = some e → e = .invalidId { InvalidId := id }) := by
  cases hg : mapGet storage.tasks id with
  | none =>
    simp [LocalStorage.Get, LocalStorage.Update, LocalStorage.Delete, hg]
  | some p =>
    simp [LocalStorage.Get, LocalStorage.Update, LocalStorage.Delete, hg]
    constructor <;> intro s' e <;> cases storage.objs[p]? <;> simp

/-- C6 (as the code behaves). For every store state, every id that is not a
key of the store, every title and status: `GetTask`, `UpdateTask` and
`DeleteTask` all fail and leave the state as it was.  The error of `GetTask`,
of `DeleteTask` and of `UpdateTask` with a non-empty title is the text error
made of the operation's context and the message of the store's
`InvalidIdError` for that id; the error of `UpdateTask` with an empty title is
the "Empty title" error.  None of them matches `*InvalidIdError`. -/
theorem manager_unknown_id_errors (m : Manager) (id : Nat) (title : String)
    (status : TaskStatus) (h : mapGet m.Storage.tasks id = none) :
    m.GetTask id =
        (none, some (.errorString
          ("Error retrieving task: " ++ (InvalidIdError.mk id).Error ++ "\n"))) ∧
    m.DeleteTask id =
        (m, some (.errorString
          ("Error deleting task: " ++ (InvalidIdError.mk id).Error ++ "\n"))) ∧
    (title ≠ "" → m.UpdateTask id title status =
        some (m, some (.errorString
          ("Error updating task: " ++ (InvalidIdError.mk id).Error ++ "\n")))) ∧
    (title = "" → m.UpdateTask id title status =
        some (m, some (.errorString "Empty title\n"))) ∧
    (∀ e, (m.GetTask id).2 = some e → e.asInvalidIdError = none) ∧
    (∀ e, (m.DeleteTask id).2 = some e → e.asInvalidIdError = none) ∧
    (∀ m' e, m.UpdateTask id title status = some (m', some e) →
      e.asInvalidIdError = none) := by
  have hget : m.GetTask id =
      (none, some (.errorString
        ("Error retrieving task: " ++ (InvalidIdError.mk id).Error ++ "\n"))) := by
    simp [Manager.GetTask, LocalStorage.Get_of_absent h, Errorf, GoError.Error]
  have hdel : m.DeleteTask id =
      (m, some (.errorString
        ("Error deleting task: " ++ (InvalidIdError.mk id).Error ++ "\n"))) := by
    simp [Manager.DeleteTask, LocalStorage.Delete_of_absent h, Errorf, GoError.Error]
  have hupd : title ≠ "" → m.UpdateTask id title status =
      some (m, some (.errorString
        ("Error updating task: " ++ (InvalidIdError.mk id).Error ++ "\n"))) := by
    intro ht
    simp [Manager.UpdateTask, ht, LocalStorage.Update_of_absent title status h, Errorf,
      GoError.Error]
  have hupd0 : title = "" → m.UpdateTask id title status =
      some (m, some (.errorString "Empty title\n")) := by
    intro ht
    simp [Manager.UpdateTask, ht]
  refine ⟨hget, hdel, hupd, hupd0, ?_, ?_, ?_⟩
  · intro e he
    rw [hget] at he
    cases he
    rfl
  · intro e he
    rw [hdel] at he
    cases he
    rfl
  · intro m' e he
    by_cases ht : title = ""
    · rw [hupd0 ht] at he
      cases he
      rfl
    · rw [hupd ht] at he
      cases he
      rfl

theorem manager_unknown_id_errors_witness :
    (Manager.mk ⟨[⟨5, "a", 0⟩], [(5, 0)]⟩).GetTask 7 =
        (none, some (.errorString
          ("Error retrieving task: " ++ (InvalidIdError.mk 7).Error ++ "\n"))) ∧
    (Manager.mk ⟨[⟨5, "a", 0⟩], [(5, 0)]⟩).DeleteTask 7 =
        (⟨⟨[⟨5, "a", 0⟩], [(5, 0)]⟩⟩, some (.errorString
          ("Error deleting task: " ++ (InvalidIdError.mk 7).Error ++ "\n"))) :=
  have h := manager_unknown_id_errors ⟨⟨[⟨5, "a", 0⟩], [(5, 0)]⟩⟩ 7 "b" 1 (by decide)
  ⟨h.1, h.2.1⟩

/-- C6, the claim as written, fails on the empty store at id 7: each of the
three methods returns an error, and none of the three errors matches
`*InvalidIdError`; with an empty title `UpdateTask` does not even report the
id. -/
theorem manager_error_kind_counterexample :
    mapGet NewManager.Storage.tasks 7 = none ∧
    (NewManager.GetTask 7).2 =
      some (.errorString "Error retrieving task: No task found with id: 7\n\n") ∧
    ((NewManager.GetTask 7).2.bind GoError.asInvalidIdError) = none ∧
    (NewManager.DeleteTask 7).2 =
      some (.errorString "Error deleting task: No task found with id: 7\n\n") ∧
    ((NewManager.DeleteTask 7).2.bind GoError.asInvalidIdError) = none ∧
    NewManager.UpdateTask 7 "t" 1 =
      some (NewManager,
        some (.errorString "Error updating task: No task found with id: 7\n\n")) ∧
    NewManager.UpdateTask 7 "" 1 = some (NewManager, some (.errorString "Empty title\n")) ∧
    ¬ ∃ m e, NewManager.UpdateTask 7 "t" 1 = some (m, some e) ∧ e.asInvalidIdError ≠ none := by
  refine ⟨by decide, by decide, by decide, by decide, by decide, by decide, by decide, ?_⟩
  rintro ⟨m, e, h1, h2⟩
  have h3 : NewManager.UpdateTask 7 "t" 1 =
      some (NewManager,
        some (.errorString "Error updating task: No task found with id: 7\n\n")) := by
    decide
  rw [h3] at h1
  cases h1
  exact h2 rfl

/-- C7. Store add: for a pointer `task` to an allocated task `t`, `Add` returns
(it does not panic); it fails exactly when `t.Id` is already a key of the
store, the error then being "Duplicate id" and the state handed back being the
one given, so the entry under that key is not overwritten; when it succeeds,
`Get t.Id` afterwards returns the pointer `task`, which still refers to `t`. -/
theorem add_duplicate_contract (storage : LocalStorage) (task : Nat) (t : Task)
    (ht : storage.objs[task]? = some t) :
    (∃ r, storage.Add task = some r) ∧
    ((∃ s' e, storage.Add task = some (s', some e)) ↔ mapGet storage.tasks t.Id ≠ none) ∧
    (∀ s' e, storage.Add task = some (s', some e) →
      e = .errorString "Duplicate id\n" ∧ s' = storage) ∧
    (∀ s', storage.Add task = some (s', none) →
      s'.Get t.Id = (some task, none) ∧ s'.objs[task]? = some t) := by
  cases hg : mapGet storage.tasks t.Id with
  | none =>
    rw [LocalStorage.Add_of_absent ht hg]
    refine ⟨⟨_, rfl⟩, by simp, by simp, ?_⟩
    intro s' hs
    simp at hs
    subst hs
    exact ⟨LocalStorage.Get_of_present (mapGet_mapSet_self _ _ _), ht⟩
  | some p =>
    rw [LocalStorage.Add_of_present ht hg]
    refine ⟨⟨_, rfl⟩, by simp, ?_, by simp⟩
    intro s' e hs
    simp at hs
    exact ⟨hs.2.symm, hs.1.symm⟩

theorem add_duplicate_contract_witness :
    (∃ r, (LocalStorage.mk [⟨5, "a", 0⟩, ⟨5, "b", 2⟩] [(5, 0)]).Add 1 = some r) ∧
    ((∃ s' e, (LocalStorage.mk [⟨5, "a", 0⟩, ⟨5, "b", 2⟩] [(5, 0)]).Add 1 = some (s', some e)) ↔
      mapGet (LocalStorage.mk [⟨5, "a", 0⟩, ⟨5, "b", 2⟩] [(5, 0)]).tasks (Task.mk 5 "b" 2).Id
        ≠ none) ∧
    (∀ s' e, (LocalStorage.mk [⟨5, "a", 0⟩, ⟨5, "b", 2⟩] [(5, 0)]).Add 1 = some (s', some e) →
      e = .errorString "Duplicate id\n" ∧
        s' = LocalStorage.mk [⟨5, "a", 0⟩, ⟨5, "b", 2⟩] [(5, 0)]) ∧
    (∀ s', (LocalStorage.mk [⟨5, "a", 0⟩, ⟨5, "b", 2⟩] [(5, 0)]).Add 1 = some (s', none) →
      s'.Get (Task.mk 5 "b" 2).Id = (some 1, none) ∧ s'.objs[1]? = some ⟨5, "b", 2⟩) :=
  add_duplicate_contract ⟨[⟨5, "a", 0⟩, ⟨5, "b", 2⟩], [(5, 0)]⟩ 1 ⟨5, "b", 2⟩ (by decide)

/-- C8. Atomicity on failure: for every state and every call of a store or
manager method, with any arguments, that returns an error, the map after the
call is the map before it and every task object that existed before the call
is unchanged; for every method but `NewTask` the whole state is literally the
same.  (A `NewTask` refused by `Add` leaves behind only the task literal it
allocated, to which the store holds no pointer.) -/
theorem failed_call_keeps_store (c : Call) (m m' : Manager) (e : GoError)
    (h : c.exec m = some (m', some e)) :
    m'.Storage.tasks = m.Storage.tasks ∧
    m'.Storage.objs.take m.Storage.objs.length = m.Storage.objs ∧
    ((∀ title id, c ≠ .NewTask title id) → m' = m) := by
  cases c with
  | Get id =>
    simp only [Call.exec, Option.some.injEq, Prod.mk.injEq] at h
    rw [← h.1]
    simp
  | GetAll =>
    simp only [Call.exec, Option.some.injEq, Prod.mk.injEq] at h
    rw [← h.1]
    simp
  | Add task =>
    simp only [Call.exec, LocalStorage.Add] at h
    cases ht : m.Storage.objs[task]? with
    | none => simp [ht] at h
    | some t =>
      cases hg : mapGet m.Storage.tasks t.Id with
      | none => simp [ht, hg] at h
      | some p =>
        simp [ht, hg] at h
        rw [← h.1]
        simp
  | Update id title status =>
    simp only [Call.exec, LocalStorage.Update] at h
    cases hg : mapGet m.Storage.tasks id with
    | none =>
      simp [hg] at h
      rw [← h.1]
      simp
    | some p =>
      cases ht : m.Storage.objs[p]? with
      | none => simp [hg, ht] at h
      | some t => simp [hg, ht] at h
  | Delete id =>
    simp only [Call.exec, LocalStorage.Delete] at h
    cases hg : mapGet m.Storage.tasks id with
    | none =>
      simp [hg] at h
      rw [← h.1]
      simp
    | some p => simp [hg] at h
  | NewTask title id =>
    simp only [Call.exec] at h
    by_cases ht : title = ""
    · simp [Manager.NewTask, ht] at h
      rw [← h.1]
      simp
    · cases hg : mapGet m.Storage.tasks id with
      | none => simp [Manager.NewTask_of_absent m ht hg] at h
      | some p =>
        simp [Manager.NewTask_of_present m ht hg] at h
        rw [← h.1]
        simp
  | GetTask id =>
    simp only [Call.exec, Option.some.injEq, Prod.mk.injEq] at h
    rw [← h.1]
    simp
  | UpdateTask id title status =>
    simp only [Call.exec] at h
    by_cases ht : title = ""
    · simp [Manager.UpdateTask, ht] at h
      rw [← h.1]
      simp
    · cases hg : mapGet m.Storage.tasks id with
      | none =>
        simp [Manager.UpdateTask, ht, LocalStorage.Update_of_absent title status hg] at h
        rw [← h.1]
        simp
      | some p =>
        cases hp : m.Storage.objs[p]? with
        | none => simp [Manager.UpdateTask, ht, LocalStorage.Update, hg, hp] at h
        | some t => simp [Manager.UpdateTask, ht, LocalStorage.Update, hg, hp] at h
  | DeleteTask id =>
    simp only [Call.exec] at h
    cases hg : mapGet m.Storage.tasks id with
    | none =>
      simp [Manager.DeleteTask, LocalStorage.Delete_of_absent hg] at h
      rw [← h.1]
      simp
    | some p => simp [Manager.DeleteTask, LocalStorage.Delete_of_present hg] at h
  | GetAllTasks =>
    simp only [Call.exec, Option.some.injEq, Prod.mk.injEq] at h
    rw [← h.1]
    simp

theorem failed_call_keeps_store_witness :
    (Manager.mk ⟨[⟨5, "a", 0⟩, ⟨5, "b", 0⟩], [(5, 0)]⟩).Storage.tasks =
        (Manager.mk ⟨[⟨5, "a", 0⟩], [(5, 0)]⟩).Storage.tasks ∧
    (Manager.mk ⟨[⟨5, "a", 0⟩, ⟨5, "b", 0⟩], [(5, 0)]⟩).Storage.objs.take
        (Manager.mk ⟨[⟨5, "a", 0⟩], [(5, 0)]⟩).Storage.objs.length =
        (Manager.mk ⟨[⟨5, "a", 0⟩], [(5, 0)]⟩).Storage.objs ∧
    ((∀ title id, Call.NewTask "b" 5 ≠ .NewTask title id) →
      Manager.mk ⟨[⟨5, "a", 0⟩, ⟨5, "b", 0⟩], [(5, 0)]⟩ = Manager.mk ⟨[⟨5, "a", 0⟩], [(5, 0)]⟩) :=
  failed_call_keeps_store (.NewTask "b" 5) ⟨⟨[⟨5, "a", 0⟩], [(5, 0)]⟩⟩
    ⟨⟨[⟨5, "a", 0⟩, ⟨5, "b", 0⟩], [(5, 0)]⟩⟩
    (.errorString "Error creating new task: Duplicate id\n\n") (by decide)

/-! ## Invariant of the reachable states -/

theorem LocalStorage.Inv_newStorage : newStorage.Inv := by
  simp [LocalStorage.Inv, newStorage]

theorem Manager.NewTask_Inv {m m' : Manager} {title : String} {id r : Nat}
    {err : Option GoError} (hinv : m.Storage.Inv)
    (h : m.NewTask title id = some (m', r, err)) : m'.Storage.Inv := by
  by_cases ht : title = ""
  · simp [Manager.NewTask, ht] at h
    rw [← h.1]
    exact hinv
  · have hold : ∀ k p, (k, p) ∈ m.Storage.tasks →
        ∃ t, (m.Storage.objs ++
            [({ Id := id, Title := title, Status := TaskOngoing } : Task)])[p]? = some t ∧
          t.Id = k ∧ t.Title ≠ "" := by
      intro k p hkp
      obtain ⟨t, hp, hid, htt⟩ := hinv.2 k p hkp
      have hlt : p < m.Storage.objs.length := (List.getElem?_eq_some.mp hp).1
      exact ⟨t, by rw [List.getElem?_append_left hlt]; exact hp, hid, htt⟩
    cases hg : mapGet m.Storage.tasks id with
    | none =>
      rw [Manager.NewTask_of_absent m ht hg] at h
      simp only [Option.some.injEq, Prod.mk.injEq] at h
      rw [← h.1]
      refine ⟨keys_mapSet_nodup _ _ hinv.1, ?_⟩
      intro k p hkp
      rcases mem_mapSet.mp hkp with heq | ⟨hmem, _⟩
      · simp only [Prod.mk.injEq] at heq
        refine ⟨{ Id := id, Title := title, Status := TaskOngoing }, ?_, heq.1.symm, ht⟩
        rw [heq.2]
        simp
      · exact hold k p hmem
    | some q =>
      rw [Manager.NewTask_of_present m ht hg] at h
      simp only [Option.some.injEq, Prod.mk.injEq] at h
      rw [← h.1]
      exact ⟨hinv.1, hold⟩

theorem Manager.DeleteTask_Inv {m : Manager} (id : Nat) (hinv : m.Storage.Inv) :
    (m.DeleteTask id).1.Storage.Inv := by
  cases hg : mapGet m.Storage.tasks id with
  | none =>
    simp only [Manager.DeleteTask, LocalStorage.Delete_of_absent hg]
    exact hinv
  | some q =>
    simp only [Manager.DeleteTask, LocalStorage.Delete_of_present hg]
    refine ⟨keys_mapDelete_nodup _ hinv.1, ?_⟩
    intro k p hkp
    exact hinv.2 k p (mem_mapDelete.mp hkp).1

theorem Manager.UpdateTask_Inv {m m' : Manager} {id : Nat} {title : String}
    {status : TaskStatus} {err : Option GoError} (hinv : m.Storage.Inv)
    (h : m.UpdateTask id title status = some (m', err)) : m'.Storage.Inv := by
  by_cases ht : title = ""
  · simp [Manager.UpdateTask, ht] at h
    rw [← h.1]
    exact hinv
  · cases hg : mapGet m.Storage.tasks id with
    | none =>
      simp [Manager.UpdateTask, ht, LocalStorage.Update_of_absent title status hg] at h
      rw [← h.1]
      exact hinv
    | some q =>
      obtain ⟨t, hq, hid, _⟩ := hinv.2 id q (mem_of_mapGet_eq_some hg)
      simp [Manager.UpdateTask, ht, LocalStorage.Update_of_present title status hg hq] at h
      rw [← h.1]
      refine ⟨hinv.1, ?_⟩
      intro k p hkp
      obtain ⟨t', hp, hid', htt'⟩ := hinv.2 k p hkp
      by_cases hpq : q = p
      · subst hpq
        have hlt : q < m.Storage.objs.length := (List.getElem?_eq_some.mp hq).1
        have htt : t' = t := by
          rw [hq] at hp
          exact (Option.some.inj hp).symm
        refine ⟨{ t with Title := title, Status := status }, ?_, ?_, ht⟩
        · simp [hlt]
        · rw [← hid', htt]
      · exact ⟨t', by simp [List.getElem?_set_ne hpq, hp], hid', htt'⟩

theorem Manager.step_Inv {m m' : Manager} {op : ManagerOp} (hinv : m.Storage.Inv)
    (h : m.step op = some m') : m'.Storage.Inv := by
  cases op with
  | NewTask title id =>
    simp only [Manager.step, Option.map_eq_some'] at h
    obtain ⟨⟨m1, r, err⟩, h1, h2⟩ := h
    simp only at h2
    subst h2
    exact Manager.NewTask_Inv hinv h1
  | GetTask id =>
    simp only [Manager.step, Option.some.injEq] at h
    rw [← h]
    exact hinv
  | DeleteTask id =>
    simp only [Manager.step, Option.some.injEq] at h
    rw [← h]
    exact Manager.DeleteTask_Inv id hinv
  | UpdateTask id title status =>
    simp only [Manager.step, Option.map_eq_some'] at h
    obtain ⟨⟨m1, err⟩, h1, h2⟩ := h
    simp only at h2
    subst h2
    exact Manager.UpdateTask_Inv hinv h1
  | GetAllTasks =>
    simp only [Manager.step, Option.some.injEq] at h
    rw [← h]
    exact hinv

theorem Manager.run_Inv {ops : List ManagerOp} {m m' : Manager} (hinv : m.Storage.Inv)
    (h : m.run ops = some m') : m'.Storage.Inv := by
  induction ops generalizing m with
  | nil =>
    simp only [Manager.run, Option.some.injEq] at h
    rw [← h]
    exact hinv
  | cons op ops ih =>
    simp only [Manager.run, Option.bind_eq_some] at h
    obtain ⟨m1, h1, h2⟩ := h
    exact ih (Manager.step_Inv hinv h1) h2

theorem Reachable.Inv {m : Manager} (h : Reachable m) : m.Storage.Inv := by
  obtain ⟨ops, hops⟩ := h
  exact Manager.run_Inv LocalStorage.Inv_newStorage hops

/-- Under the invariant no manager call panics. -/
theorem Manager.step_ne_none {m : Manager} (hinv : m.Storage.Inv) (op : ManagerOp) :
    m.step op ≠ none := by
  cases op with
  | NewTask title id =>
    by_cases ht : title = ""
    · simp [Manager.step, Manager.NewTask, ht]
    · cases hg : mapGet m.Storage.tasks id with
      | none => simp [Manager.step, Manager.NewTask_of_absent m ht hg]
      | some q => simp [Manager.step, Manager.NewTask_of_present m ht hg]
  | GetTask id => simp [Manager.step]
  | DeleteTask id => simp [Manager.step]
  | UpdateTask id title status =>
    by_cases ht : title = ""
    · simp [Manager.step, Manager.UpdateTask, ht]
    · cases hg : mapGet m.Storage.tasks id with
      | none =>
        simp [Manager.step, Manager.UpdateTask, ht, LocalStorage.Update_of_absent title status hg]
      | some q =>
        obtain ⟨t, hq, _, _⟩ := hinv.2 id q (mem_of_mapGet_eq_some hg)
        simp [Manager.step, Manager.UpdateTask, ht,
          LocalStorage.Update_of_present title status hg hq]
  | GetAllTasks => simp [Manager.step]

/-- Every sequence of manager calls runs to the end from a state that satisfies
the invariant; in particular from the fresh manager. -/
theorem Manager.run_ne_none {m : Manager} (hinv : m.Storage.Inv) (ops : List ManagerOp) :
    m.run ops ≠ none := by
  induction ops generalizing m with
  | nil => simp [Manager.run]
  | cons op ops ih =>
    cases hs : m.step op with
    | none => exact absurd hs (Manager.step_ne_none hinv op)
    | some m1 =>
      simp only [Manager.run, hs, Option.some_bind]
      exact ih (Manager.step_Inv hinv hs)

theorem LocalStorage.mem_liveTasks {storage : LocalStorage} {t : Task} :
    t ∈ storage.liveTasks ↔ ∃ k p, (k, p) ∈ storage.tasks ∧ storage.objs[p]? = some t := by
  simp [LocalStorage.liveTasks, List.mem_filterMap]

theorem liveTasks_ids_eq_keys (objs : List Task) (l : List (Nat × Nat))
    (h : ∀ k p, (k, p) ∈ l → ∃ t, objs[p]? = some t ∧ t.Id = k) :
    (l.filterMap (fun e => objs[e.2]?)).map Task.Id = l.map Prod.fst := by
  induction l with
  | nil => rfl
  | cons e l ih =>
    obtain ⟨k, p⟩ := e
    obtain ⟨t, hp, hid⟩ := h k p (List.mem_cons_self _ _)
    have ih' := ih (fun k' p' hmem => h k' p' (List.mem_cons_of_mem _ hmem))
    simp [List.filterMap_cons, hp, hid, ih']

/-- C9. Id uniqueness: in every state reachable from the empty store by manager
calls, every map entry points at an allocated task whose `Id` field is the key
of the entry, the ids of the tasks in the store are pairwise distinct (one task
per entry), and whenever `NewTask` succeeds the id it returns differs from the
id of every task in the store at that moment. -/
theorem id_uniqueness_invariant (m : Manager) (h : Reachable m) :
    (∀ k p, (k, p) ∈ m.Storage.tasks → ∃ t, m.Storage.objs[p]? = some t ∧ t.Id = k) ∧
    (m.Storage.liveTasks.map Task.Id).Nodup ∧
    m.Storage.liveTasks.length = m.Storage.tasks.length ∧
    (∀ title r m' id, m.NewTask title r = some (m', id, none) →
      ∀ t ∈ m.Storage.liveTasks, t.Id ≠ id) := by
  have hinv := h.Inv
  have hkey : ∀ k p, (k, p) ∈ m.Storage.tasks →
      ∃ t, m.Storage.objs[p]? = some t ∧ t.Id = k := by
    intro k p hkp
    obtain ⟨t, hp, hid, _⟩ := hinv.2 k p hkp
    exact ⟨t, hp, hid⟩
  have hids := liveTasks_ids_eq_keys m.Storage.objs m.Storage.tasks hkey
  refine ⟨hkey, ?_, ?_, ?_⟩
  · unfold LocalStorage.liveTasks
    rw [hids]
    exact hinv.1
  · have hlen := congrArg List.length hids
    simpa [LocalStorage.liveTasks] using hlen
  · intro title r m' id hnew t ht hteq
    by_cases htitle : title = ""
    · simp [Manager.NewTask, htitle] at hnew
    · cases hg : mapGet m.Storage.tasks r with
      | some q => simp [Manager.NewTask_of_present m htitle hg] at hnew
      | none =>
        simp [Manager.NewTask_of_absent m htitle hg] at hnew
        obtain ⟨k, p, hkp, hp⟩ := LocalStorage.mem_liveTasks.mp ht
        obtain ⟨t', hp', hid'⟩ := hkey k p hkp
        rw [hp] at hp'
        have hk : k = r := by
          rw [← hid', ← Option.some.inj hp', hteq, hnew.2]
        rw [hk] at hkp
        exact mapGet_ne_none_of_mem hkp hg

theorem id_uniqueness_invariant_witness :
    (∀ k p, (k, p) ∈ (Manager.mk ⟨[⟨5, "b", 2⟩, ⟨9, "c", 0⟩], [(9, 1)]⟩).Storage.tasks →
      ∃ t, (Manager.mk ⟨[⟨5, "b", 2⟩, ⟨9, "c", 0⟩], [(9, 1)]⟩).Storage.objs[p]? = some t ∧
        t.Id = k) ∧
    ((Manager.mk ⟨[⟨5, "b", 2⟩, ⟨9, "c", 0⟩], [(9, 1)]⟩).Storage.liveTasks.map Task.Id).Nodup ∧
    (Manager.mk ⟨[⟨5, "b", 2⟩, ⟨9, "c", 0⟩], [(9, 1)]⟩).Storage.liveTasks.length =
      (Manager.mk ⟨[⟨5, "b", 2⟩, ⟨9, "c", 0⟩], [(9, 1)]⟩).Storage.tasks.length ∧
    (∀ title r m' id,
      (Manager.mk ⟨[⟨5, "b", 2⟩, ⟨9, "c", 0⟩], [(9, 1)]⟩).NewTask title r = some (m', id, none) →
      ∀ t ∈ (Manager.mk ⟨[⟨5, "b", 2⟩, ⟨9, "c", 0⟩], [(9, 1)]⟩).Storage.liveTasks, t.Id ≠ id) :=
  id_uniqueness_invariant ⟨⟨[⟨5, "b", 2⟩, ⟨9, "c", 0⟩], [(9, 1)]⟩⟩
    ⟨[.NewTask "a" 5, .UpdateTask 5 "b" 2, .NewTask "c" 9, .NewTask "" 9, .DeleteTask 5],
      by decide⟩

/-- C10. Non-empty title invariant: in every state reachable from the empty
store by manager calls (`NewTask`, `UpdateTask`, `DeleteTask`, `GetTask`,
`GetAllTasks`, any arguments), every map entry points at an allocated task, and
every task in the store has a non-empty title. -/
theorem title_nonempty_invariant (m : Manager) (h : Reachable m) :
    (∀ k p, (k, p) ∈ m.Storage.tasks →
      ∃ t, m.Storage.objs[p]? = some t ∧ t.Title ≠ "") ∧
    (∀ t ∈ m.Storage.liveTasks, t.Title ≠ "") := by
  have hinv := h.Inv
  constructor
  · intro k p hkp
    obtain ⟨t, hp, _, htt⟩ := hinv.2 k p hkp
    exact ⟨t, hp, htt⟩
  · intro t ht
    obtain ⟨k, p, hkp, hp⟩ := LocalStorage.mem_liveTasks.mp ht
    obtain ⟨t', hp', _, htt⟩ := hinv.2 k p hkp
    rw [hp] at hp'
    rw [Option.some.inj hp']
    exact htt

theorem title_nonempty_invariant_witness :
    (∀ k p, (k, p) ∈ (Manager.mk ⟨[⟨5, "a", 0⟩, ⟨9, "d", 1⟩], [(9, 1), (5, 0)]⟩).Storage.tasks →
      ∃ t, (Manager.mk ⟨[⟨5, "a", 0⟩, ⟨9, "d", 1⟩], [(9, 1), (5, 0)]⟩).Storage.objs[p]? = some t ∧
        t.Title ≠ "") ∧
    (∀ t ∈ (Manager.mk ⟨[⟨5, "a", 0⟩, ⟨9, "d", 1⟩], [(9, 1), (5, 0)]⟩).Storage.liveTasks,
      t.Title ≠ "") :=
  title_nonempty_invariant ⟨⟨[⟨5, "a", 0⟩, ⟨9, "d", 1⟩], [(9, 1), (5, 0)]⟩⟩
    ⟨[.NewTask "a" 5, .NewTask "c" 9, .GetTask 9, .UpdateTask 9 "" 2, .UpdateTask 9 "d" 1,
      .GetAllTasks, .DeleteTask 7], by decide⟩

/-! ## Status values -/

theorem IsValidStatus_eq_true_iff (n : Int) :
    IsValidStatus n = true ↔ n = 0 ∨ n = 1 ∨ n = 2 := by
  simp [IsValidStatus, TaskOngoing, TaskCompleted, TaskClosed]

theorem LocalStorage.StatusInv_newStorage : newStorage.StatusInv := by
  simp [LocalStorage.StatusInv, newStorage]

theorem Manager.NewTask_StatusInv {m m' : Manager} {title : String} {id r : Nat}
    {err : Option GoError} (hinv : m.Storage.StatusInv)
    (h : m.NewTask title id = some (m', r, err)) : m'.Storage.StatusInv := by
  by_cases ht : title = ""
  · simp [Manager.NewTask, ht] at h
    rw [← h.1]
    exact hinv
  · have hold : ∀ k p, (k, p) ∈ m.Storage.tasks →
        ∃ t, (m.Storage.objs ++
            [({ Id := id, Title := title, Status := TaskOngoing } : Task)])[p]? = some t ∧
          IsValidStatus t.Status = true := by
      intro k p hkp
      obtain ⟨t, hp, hst⟩ := hinv k p hkp
      have hlt : p < m.Storage.objs.length := (List.getElem?_eq_some.mp hp).1
      exact ⟨t, by rw [List.getElem?_append_left hlt]; exact hp, hst⟩
    cases hg : mapGet m.Storage.tasks id with
    | none =>
      rw [Manager.NewTask_of_absent m ht hg] at h
      simp only [Option.some.injEq, Prod.mk.injEq] at h
      rw [← h.1]
      intro k p hkp
      rcases mem_mapSet.mp hkp with heq | ⟨hmem, _⟩
      · simp only [Prod.mk.injEq] at heq
        refine ⟨{ Id := id, Title := title, Status := TaskOngoing }, ?_, rfl⟩
        rw [heq.2]
        simp
      · exact hold k p hmem
    | some q =>
      rw [Manager.NewTask_of_present m ht hg] at h
      simp only [Option.some.injEq, Prod.mk.injEq] at h
      rw [← h.1]
      exact hold

theorem Manager.DeleteTask_StatusInv {m : Manager} (id : Nat) (hinv : m.Storage.StatusInv) :
    (m.DeleteTask id).1.Storage.StatusInv := by
  cases hg : mapGet m.Storage.tasks id with
  | none =>
    simp only [Manager.DeleteTask, LocalStorage.Delete_of_absent hg]
    exact hinv
  | some q =>
    simp only [Manager.DeleteTask, LocalStorage.Delete_of_present hg]
    intro k p hkp
    exact hinv k p (mem_mapDelete.mp hkp).1

theorem Manager.UpdateTask_StatusInv {m m' : Manager} {id : Nat} {title : String}
    {status : TaskStatus} {err : Option GoError} (hinv : m.Storage.StatusInv)
    (hst : IsValidStatus status = true)
    (h : m.UpdateTask id title status = some (m', err)) : m'.Storage.StatusInv := by
  by_cases ht : title = ""
  · simp [Manager.UpdateTask, ht] at h
    rw [← h.1]
    exact hinv
  · cases hg : mapGet m.Storage.tasks id with
    | none =>
      simp [Manager.UpdateTask, ht, LocalStorage.Update_of_absent title status hg] at h
      rw [← h.1]
      exact hinv
    | some q =>
      obtain ⟨t, hq, _⟩ := hinv id q (mem_of_mapGet_eq_some hg)
      simp [Manager.UpdateTask, ht, LocalStorage.Update_of_present title status hg hq] at h
      rw [← h.1]
      intro k p hkp
      obtain ⟨t', hp, hst'⟩ := hinv k p hkp
      by_cases hpq : q = p
      · subst hpq
        have hlt : q < m.Storage.objs.length := (List.getElem?_eq_some.mp hq).1
        exact ⟨{ t with Title := title, Status := status }, by simp [hlt], hst⟩
      · exact ⟨t', by simp [List.getElem?_set_ne hpq, hp], hst'⟩

theorem Manager.step_StatusInv {m m' : Manager} {op : ManagerOp} (hinv : m.Storage.StatusInv)
    (hop : op.statusChecked = true) (h : m.step op = some m') : m'.Storage.StatusInv := by
  cases op with
  | NewTask title id =>
    simp only [Manager.step, Option.map_eq_some'] at h
    obtain ⟨⟨m1, r, err⟩, h1, h2⟩ := h
    simp only at h2
    subst h2
    exact Manager.NewTask_StatusInv hinv h1
  | GetTask id =>
    simp only [Manager.step, Option.some.injEq] at h
    rw [← h]
    exact hinv
  | DeleteTask id =>
    simp only [Manager.step, Option.some.injEq] at h
    rw [← h]
    exact Manager.DeleteTask_StatusInv id hinv
  | UpdateTask id title status =>
    simp only [Manager.step, Option.map_eq_some'] at h
    obtain ⟨⟨m1, err⟩, h1, h2⟩ := h
    simp only at h2
    subst h2
    exact Manager.UpdateTask_StatusInv hinv hop h1
  | GetAllTasks =>
    simp only [Manager.step, Option.some.injEq] at h
    rw [← h]
    exact hinv

theorem Manager.run_StatusInv {ops : List ManagerOp} {m m' : Manager}
    (hinv : m.Storage.StatusInv) (hops : ∀ op ∈ ops, op.statusChecked = true)
    (h : m.run ops = some m') : m'.Storage.StatusInv := by
  induction ops generalizing m with
  | nil =>
    simp only [Manager.run, Option.some.injEq] at h
    rw [← h]
    exact hinv
  | cons op ops ih =>
    simp only [Manager.run, Option.bind_eq_some] at h
    obtain ⟨m1, h1, h2⟩ := h
    exact ih (Manager.step_StatusInv hinv (hops op (List.mem_cons_self _ _)) h1)
      (fun op' hmem => hops op' (List.mem_cons_of_mem _ hmem)) h2

/-- C11 (as the code behaves). In every state reached from the empty store by
manager calls whose `UpdateTask` statuses pass `IsValidStatus` (the check the
HTTP handler makes before calling), every task in the store has status
`TaskOngoing`, `TaskCompleted` or `TaskClosed`.  `Manager.UpdateTask` itself
makes no check: on a stored task and a non-empty title it succeeds for every
integer status and stores it. -/
theorem status_valid_invariant (ops : List ManagerOp) (m : Manager)
    (hops : ∀ op ∈ ops, op.statusChecked = true) (hrun : NewManager.run ops = some m) :
    (∀ t ∈ m.Storage.liveTasks,
      t.Status = TaskOngoing ∨ t.Status = TaskCompleted ∨ t.Status = TaskClosed) ∧
    (∀ (m0 : Manager) (id p : Nat) (t : Task) (title : String) (status : TaskStatus),
      mapGet m0.Storage.tasks id = some p → m0.Storage.objs[p]? = some t → title ≠ "" →
      ∃ m1, m0.UpdateTask id title status = some (m1, none) ∧
        m1.Storage.objs[p]? = some { t with Title := title, Status := status }) := by
  have hinv := Manager.run_StatusInv LocalStorage.StatusInv_newStorage hops hrun
  constructor
  · intro t ht
    obtain ⟨k, p, hkp, hp⟩ := LocalStorage.mem_liveTasks.mp ht
    obtain ⟨t', hp', hst⟩ := hinv k p hkp
    rw [hp] at hp'
    rw [← Option.some.inj hp'] at hst
    exact (IsValidStatus_eq_true_iff t.Status).mp hst
  · intro m0 id p t title status hg hp ht
    have hlt : p < m0.Storage.objs.length := (List.getElem?_eq_some.mp hp).1
    refine ⟨{ Storage := { m0.Storage with
        objs := m0.Storage.objs.set p { t with Title := title, Status := status } } }, ?_, ?_⟩
    · simp [Manager.UpdateTask, ht, LocalStorage.Update_of_present title status hg hp]
    · simp [hlt]

theorem status_valid_invariant_witness :
    (∀ t ∈ (Manager.mk ⟨[⟨5, "b", 2⟩, ⟨9, "c", 0⟩], [(9, 1), (5, 0)]⟩).Storage.liveTasks,
      t.Status = TaskOngoing ∨ t.Status = TaskCompleted ∨ t.Status = TaskClosed) ∧
    (∀ (m0 : Manager) (id p : Nat) (t : Task) (title : String) (status : TaskStatus),
      mapGet m0.Storage.tasks id = some p → m0.Storage.objs[p]? = some t → title ≠ "" →
      ∃ m1, m0.UpdateTask id title status = some (m1, none) ∧
        m1.Storage.objs[p]? = some { t with Title := title, Status := status }) :=
  status_valid_invariant [.NewTask "a" 5, .UpdateTask 5 "b" 2, .NewTask "c" 9]
    ⟨⟨[⟨5, "b", 2⟩, ⟨9, "c", 0⟩], [(9, 1), (5, 0)]⟩⟩ (by decide) (by decide)

/-- C11, the claim as written, fails after two manager calls from the empty
store: `UpdateTask` accepts the status 7, which `IsValidStatus` rejects, and the
task in the store then has status 7. -/
theorem status_invariant_counterexample :
    NewManager.run [.NewTask "a" 5, .UpdateTask 5 "a" 7] =
      some ⟨⟨[⟨5, "a", 7⟩], [(5, 0)]⟩⟩ ∧
    (Manager.mk ⟨[⟨5, "a", 0⟩], [(5, 0)]⟩).UpdateTask 5 "a" 7 =
      some (⟨⟨[⟨5, "a", 7⟩], [(5, 0)]⟩⟩, none) ∧
    (Manager.mk ⟨[⟨5, "a", 7⟩], [(5, 0)]⟩).Storage.liveTasks = [⟨5, "a", 7⟩] ∧
    IsValidStatus 7 = false := by
  decide

/-- C12. Status validation: `IsValidStatus n` is true exactly when `n` is 0, 1
or 2; every negative integer and every integer greater than 2 is rejected. -/
theorem isValidStatus_spec (n : Int) :
    (IsValidStatus n = true ↔ n = 0 ∨ n = 1 ∨ n = 2) ∧
    (n < 0 → IsValidStatus n = false) ∧
    (2 < n → IsValidStatus n = false) := by
  refine ⟨IsValidStatus_eq_true_iff n, ?_, ?_⟩
  · intro h
    cases hv : IsValidStatus n with
    | false => rfl
    | true =>
      have := (IsValidStatus_eq_true_iff n).mp hv
      omega
  · intro h
    cases hv : IsValidStatus n with
    | false => rfl
    | true =>
      have := (IsValidStatus_eq_true_iff n).mp hv
      omega

/-! ## Updates, collisions and names -/

theorem Manager.UpdateTask_twice {m m1 : Manager} {id : Nat} {T2 : String} {S2 : TaskStatus}
    {e1 : Option GoError} (h : m.UpdateTask id T2 S2 = some (m1, e1)) :
    m1.UpdateTask id T2 S2 = some (m1, e1) := by
  by_cases ht : T2 = ""
  · simp [Manager.UpdateTask, ht] at h
    rw [← h.1, ← h.2]
    simp [Manager.UpdateTask, ht]
  · cases hg : mapGet m.Storage.tasks id with
    | none =>
      simp [Manager.UpdateTask, ht, LocalStorage.Update_of_absent T2 S2 hg] at h
      rw [← h.1, ← h.2]
      simp [Manager.UpdateTask, ht, LocalStorage.Update_of_absent T2 S2 hg]
    | some p =>
      cases hp : m.Storage.objs[p]? with
      | none => simp [Manager.UpdateTask, ht, LocalStorage.Update, hg, hp] at h
      | some t =>
        simp [Manager.UpdateTask, ht, LocalStorage.Update_of_present T2 S2 hg hp] at h
        have hlt : p < m.Storage.objs.length := (List.getElem?_eq_some.mp hp).1
        have hg1 : mapGet m1.Storage.tasks id = some p := by
          rw [← h.1]
          exact hg
        have hp1 : m1.Storage.objs[p]? = some { t with Title := T2, Status := S2 } := by
          rw [← h.1]
          simp [hlt]
        have hset : m1.Storage.objs.set p { t with Title := T2, Status := S2 } =
            m1.Storage.objs := by
          rw [← h.1]
          simp
        simp [Manager.UpdateTask, ht, LocalStorage.Update_of_present T2 S2 hg1 hp1, hset,
          ← h.2]

theorem Manager.UpdateTask_returns (m : Manager) (id : Nat) (T2 : String) (S2 : TaskStatus)
    (hwf : ∀ p, mapGet m.Storage.tasks id = some p → p < m.Storage.objs.length) :
    ∃ r, m.UpdateTask id T2 S2 = some r := by
  by_cases ht : T2 = ""
  · simp [Manager.UpdateTask, ht]
  · cases hg : mapGet m.Storage.tasks id with
    | none => simp [Manager.UpdateTask, ht, LocalStorage.Update_of_absent T2 S2 hg]
    | some p =>
      have hlt := hwf p hg
      have hp : m.Storage.objs[p]? = some (m.Storage.objs[p]) := List.getElem?_eq_getElem hlt
      simp [Manager.UpdateTask, ht, LocalStorage.Update_of_present T2 S2 hg hp]

/-- C13. Update idempotence: for every state, id, title and status, whenever
`UpdateTask id T2 S2` returns, calling it again with the same arguments returns
the same result (success or the same error) and leaves the state the first call
produced; and the first call does return whenever the pointer stored under
`id`, if there is one, refers to an allocated task (Go stores no other
pointer). -/
theorem updateTask_idempotent (m : Manager) (id : Nat) (T2 : String) (S2 : TaskStatus) :
    (∀ m1 e1, m.UpdateTask id T2 S2 = some (m1, e1) →
      m1.UpdateTask id T2 S2 = some (m1, e1)) ∧
    ((∀ p, mapGet m.Storage.tasks id = some p → p < m.Storage.objs.length) →
      ∃ m1 e1, m.UpdateTask id T2 S2 = some (m1, e1) ∧
        m1.UpdateTask id T2 S2 = some (m1, e1)) := by
  constructor
  · intro m1 e1 h
    exact Manager.UpdateTask_twice h
  · intro hwf
    obtain ⟨⟨m1, e1⟩, h⟩ := Manager.UpdateTask_returns m id T2 S2 hwf
    exact ⟨m1, e1, h, Manager.UpdateTask_twice h⟩

theorem updateTask_idempotent_witness :
    ∃ m1 e1, (Manager.mk ⟨[⟨5, "a", 0⟩], [(5, 0)]⟩).UpdateTask 5 "c" 1 = some (m1, e1) ∧
      m1.UpdateTask 5 "c" 1 = some (m1, e1) :=
  (updateTask_idempotent ⟨⟨[⟨5, "a", 0⟩], [(5, 0)]⟩⟩ 5 "c" 1).2 (by decide)

/-- C15. No retry on id collision: for a non-empty title and a generated id
that is already a key of the store, the single call of `Add` that `NewTask`
makes is refused with "Duplicate id"; `NewTask` returns id 0 and the creation
error built from it; the map is the one it was given (no entry under another
id appears), and the entry under that id still points at the same task, whose
fields are unchanged. -/
theorem newTask_collision_no_retry (m : Manager) (title : String) (id p : Nat) (t : Task)
    (ht : title ≠ "") (hg : mapGet m.Storage.tasks id = some p)
    (hp : m.Storage.objs[p]? = some t) :
    ∃ st,
      LocalStorage.Add
          { m.Storage with
              objs := m.Storage.objs ++ [{ Id := id, Title := title, Status := TaskOngoing }] }
          m.Storage.objs.length =
        some (st, some (.errorString "Duplicate id\n")) ∧
      m.NewTask title id =
        some ({ Storage := st }, 0,
          some (.errorString "Error creating new task: Duplicate id\n\n")) ∧
      st.tasks = m.Storage.tasks ∧
      st.Get id = (some p, none) ∧
      st.objs[p]? = some t := by
  have hlt : p < m.Storage.objs.length := (List.getElem?_eq_some.mp hp).1
  have hobj : (m.Storage.objs ++ [({ Id := id, Title := title, Status := TaskOngoing } : Task)])[
      m.Storage.objs.length]? = some { Id := id, Title := title, Status := TaskOngoing } := by
    simp
  refine ⟨{ m.Storage with
      objs := m.Storage.objs ++ [{ Id := id, Title := title, Status := TaskOngoing }] },
    ?_, ?_, rfl, ?_, ?_⟩
  · simp [LocalStorage.Add, hobj, hg]
  · rw [Manager.NewTask_of_present m ht hg]
    simp only [Errorf, GoError.Error]
    rfl
  · simp [LocalStorage.Get, hg]
  · simp only
    rw [List.getElem?_append_left hlt]
    exact hp

theorem newTask_collision_no_retry_witness :
    ∃ st,
      LocalStorage.Add ⟨[⟨5, "a", 2⟩, ⟨5, "b", 0⟩], [(5, 0)]⟩ 1 =
        some (st, some (.errorString "Duplicate id\n")) ∧
      (Manager.mk ⟨[⟨5, "a", 2⟩], [(5, 0)]⟩).NewTask "b" 5 =
        some ({ Storage := st }, 0,
          some (.errorString "Error creating new task: Duplicate id\n\n")) ∧
      st.tasks = [(5, 0)] ∧
      st.Get 5 = (some 0, none) ∧
      st.objs[0]? = some ⟨5, "a", 2⟩ :=
  newTask_collision_no_retry ⟨⟨[⟨5, "a", 2⟩], [(5, 0)]⟩⟩ "b" 5 0 ⟨5, "a", 2⟩
    (by decide) (by decide) (by decide)

/-- C17. Unrestricted status transitions: when the store holds under key `X` a
task whose status is one of the three constants, then for every target status
among the three and every non-empty title, `UpdateTask X title target`
succeeds and the task under `X` has the target status afterwards; no pair of
current and target status is refused (the current status plays no part). -/
theorem updateTask_any_transition (m : Manager) (X p : Nat) (t : Task) (title : String)
    (target : TaskStatus) (hX : mapGet m.Storage.tasks X = some p)
    (hp : m.Storage.objs[p]? = some t) (_hcur : IsValidStatus t.Status = true)
    (htarget : IsValidStatus target = true) (ht : title ≠ "") :
    ∃ m' t', m.UpdateTask X title target = some (m', none) ∧
      m'.Storage.Get X = (some p, none) ∧ m'.Storage.objs[p]? = some t' ∧
      t'.Status = target ∧ IsValidStatus t'.Status = true ∧ t'.Title = title ∧
      t'.Id = t.Id := by
  have hlt : p < m.Storage.objs.length := (List.getElem?_eq_some.mp hp).1
  refine ⟨{ Storage := { m.Storage with
      objs := m.Storage.objs.set p { t with Title := title, Status := target } } },
    { t with Title := title, Status := target }, ?_, ?_, ?_, rfl, htarget, rfl, rfl⟩
  · simp [Manager.UpdateTask, ht, LocalStorage.Update_of_present title target hX hp]
  · simp [LocalStorage.Get, hX]
  · simp [hlt]

theorem updateTask_any_transition_witness :
    ∃ m' t', (Manager.mk ⟨[⟨5, "a", TaskClosed⟩], [(5, 0)]⟩).UpdateTask 5 "a" TaskOngoing =
        some (m', none) ∧
      m'.Storage.Get 5 = (some 0, none) ∧ m'.Storage.objs[0]? = some t' ∧
      t'.Status = TaskOngoing ∧ IsValidStatus t'.Status = true ∧ t'.Title = "a" ∧
      t'.Id = (Task.mk 5 "a" TaskClosed).Id :=
  updateTask_any_transition ⟨⟨[⟨5, "a", TaskClosed⟩], [(5, 0)]⟩⟩ 5 0 ⟨5, "a", TaskClosed⟩ "a"
    TaskOngoing (by decide) (by decide) (by decide) (by decide) (by decide)

/-- C18. Canonical status names: `String` gives "ongoing" for 0, "completed" for
1 and "closed" for 2, three different names, and the empty string for every
other status; so the name is non-empty exactly when `IsValidStatus` holds. -/
theorem status_names (s : TaskStatus) :
    TaskStatus.String 0 = "ongoing" ∧ TaskStatus.String 1 = "completed" ∧
    TaskStatus.String 2 = "closed" ∧
    TaskStatus.String 0 ≠ TaskStatus.String 1 ∧ TaskStatus.String 0 ≠ TaskStatus.String 2 ∧
    TaskStatus.String 1 ≠ TaskStatus.String 2 ∧
    (s ≠ 0 ∧ s ≠ 1 ∧ s ≠ 2 → TaskStatus.String s = "") ∧
    (TaskStatus.String s ≠ "" ↔ IsValidStatus s = true) := by
  refine ⟨by decide, by decide, by decide, by decide, by decide, by decide, ?_, ?_⟩
  · rintro ⟨h0, h1, h2⟩
    simp [TaskStatus.String, taskStatusName, TaskOngoing, TaskCompleted, TaskClosed, h0, h1, h2]
  · rw [IsValidStatus_eq_true_iff]
    by_cases h0 : s = 0
    · subst h0
      simp
      decide
    · by_cases h1 : s = 1
      · subst h1
        simp
        decide
      · by_cases h2 : s = 2
        · subst h2
          simp
          decide
        · simp [TaskStatus.String, taskStatusName, TaskOngoing, TaskCompleted, TaskClosed,
            h0, h1, h2]

/-! ## Listing and frame -/

theorem mapGet_eq_some_of_mem {m : List (Nat × Nat)} {k v : Nat}
    (hnd : (m.map Prod.fst).Nodup) (h : (k, v) ∈ m) : mapGet m k = some v := by
  induction m with
  | nil => simp at h
  | cons e m ih =>
    obtain ⟨k0, v0⟩ := e
    simp only [List.map_cons, List.nodup_cons] at hnd
    rcases List.mem_cons.mp h with h1 | h1
    · simp only [Prod.mk.injEq] at h1
      simp [mapGet, h1.1, h1.2]
    · have hne : k0 ≠ k := by
        intro heq
        apply hnd.1
        rw [heq]
        exact List.mem_map.mpr ⟨(k, v), h1, rfl⟩
      simp [mapGet, hne, ih hnd.2 h1]

theorem count_snd_eq_length_filter (l : List (Nat × Nat)) (p : Nat) :
    (l.map Prod.snd).count p = (l.filter (fun e => decide (e.2 = p))).length := by
  induction l with
  | nil => rfl
  | cons e l ih =>
    by_cases h : e.2 = p
    · simp [List.filter_cons, h, ih]
    · have hne : (e.2 == p) = false := by simpa using h
      simp [List.filter_cons, h, List.count_cons, hne, ih]

theorem pointers_nodup_of_keyed {objs : List Task} {l : List (Nat × Nat)}
    (hnd : (l.map Prod.fst).Nodup)
    (hkey : ∀ k p, (k, p) ∈ l → ∃ t, objs[p]? = some t ∧ t.Id = k) :
    (l.map Prod.snd).Nodup := by
  refine List.Nodup.map_on ?_ (List.Nodup.of_map Prod.fst hnd)
  rintro ⟨k1, p1⟩ h1 ⟨k2, p2⟩ h2 heq
  simp only at heq
  subst heq
  obtain ⟨t1, ht1, hid1⟩ := hkey k1 p1 h1
  obtain ⟨t2, ht2, hid2⟩ := hkey k2 p1 h2
  rw [ht1] at ht2
  have : t1 = t2 := Option.some.inj ht2
  subst this
  rw [← hid1, ← hid2]

/-- C14. Listing completeness: `GetAll` never fails, `GetAllTasks` returns what
`GetAll` returns, and every ordering `res` of the listing has one element per
map entry: its length is the number of entries, a pointer is listed exactly
when it is stored under some key, and it is listed as many times as there are
entries holding it.  With distinct keys (a Go map) the listed pointers are the
ones `Get` returns, and when each stored task carries its key as `Id` no
pointer is listed twice.  The listing of the empty store is empty. -/
theorem getAll_lists_every_task (storage : LocalStorage) (res : List Nat)
    (hres : res.Perm storage.GetAll.1) :
    storage.GetAll.2 = none ∧
    (Manager.mk storage).GetAllTasks = storage.GetAll ∧
    res.length = storage.tasks.length ∧
    (∀ p, p ∈ res ↔ ∃ k, (k, p) ∈ storage.tasks) ∧
    (∀ p, res.count p = (storage.tasks.filter (fun e => decide (e.2 = p))).length) ∧
    (∀ k p, (storage.Get k).1 = some p → p ∈ res) ∧
    ((storage.tasks.map Prod.fst).Nodup →
      ∀ p, p ∈ res → ∃ k, storage.Get k = (some p, none)) ∧
    ((storage.tasks.map Prod.fst).Nodup →
      (∀ k p, (k, p) ∈ storage.tasks → ∃ t, storage.objs[p]? = some t ∧ t.Id = k) →
      res.Nodup) ∧
    newStorage.GetAll = ([], none) := by
  have hmem : ∀ p, p ∈ res ↔ ∃ k, (k, p) ∈ storage.tasks := by
    intro p
    rw [hres.mem_iff]
    simp [LocalStorage.GetAll]
  refine ⟨rfl, rfl, ?_, hmem, ?_, ?_, ?_, ?_, rfl⟩
  · rw [hres.length_eq]
    simp [LocalStorage.GetAll]
  · intro p
    rw [hres.count_eq]
    exact count_snd_eq_length_filter storage.tasks p
  · intro k p hget
    cases hg : mapGet storage.tasks k with
    | none => simp [LocalStorage.Get, hg] at hget
    | some q =>
      simp [LocalStorage.Get, hg] at hget
      subst hget
      exact (hmem q).mpr ⟨k, mem_of_mapGet_eq_some hg⟩
  · intro hnd p hp
    obtain ⟨k, hk⟩ := (hmem p).mp hp
    exact ⟨k, LocalStorage.Get_of_present (mapGet_eq_some_of_mem hnd hk)⟩
  · intro hnd hkey
    rw [hres.nodup_iff]
    exact pointers_nodup_of_keyed hnd hkey

theorem getAll_lists_every_task_witness :
    (LocalStorage.mk [⟨5, "a", 0⟩, ⟨9, "b", 2⟩] [(9, 1), (5, 0)]).GetAll.2 = none ∧
    (Manager.mk ⟨[⟨5, "a", 0⟩, ⟨9, "b", 2⟩], [(9, 1), (5, 0)]⟩).GetAllTasks =
      (LocalStorage.mk [⟨5, "a", 0⟩, ⟨9, "b", 2⟩] [(9, 1), (5, 0)]).GetAll ∧
    [0, 1].length = (LocalStorage.mk [⟨5, "a", 0⟩, ⟨9, "b", 2⟩] [(9, 1), (5, 0)]).tasks.length ∧
    (∀ p, p ∈ [0, 1] ↔
      ∃ k, (k, p) ∈ (LocalStorage.mk [⟨5, "a", 0⟩, ⟨9, "b", 2⟩] [(9, 1), (5, 0)]).tasks) ∧
    (∀ p, [0, 1].count p =
      ((LocalStorage.mk [⟨5, "a", 0⟩, ⟨9, "b", 2⟩] [(9, 1), (5, 0)]).tasks.filter
        (fun e => decide (e.2 = p))).length) ∧
    (∀ k p, ((LocalStorage.mk [⟨5, "a", 0⟩, ⟨9, "b", 2⟩] [(9, 1), (5, 0)]).Get k).1 = some p →
      p ∈ [0, 1]) ∧
    (((LocalStorage.mk [⟨5, "a", 0⟩, ⟨9, "b", 2⟩] [(9, 1), (5, 0)]).tasks.map Prod.fst).Nodup →
      ∀ p, p ∈ [0, 1] →
        ∃ k, (LocalStorage.mk [⟨5, "a", 0⟩, ⟨9, "b", 2⟩] [(9, 1), (5, 0)]).Get k =
          (some p, none)) ∧
    (((LocalStorage.mk [⟨5, "a", 0⟩, ⟨9, "b", 2⟩] [(9, 1), (5, 0)]).tasks.map Prod.fst).Nodup →
      (∀ k p, (k, p) ∈ (LocalStorage.mk [⟨5, "a", 0⟩, ⟨9, "b", 2⟩] [(9, 1), (5, 0)]).tasks →
        ∃ t, (LocalStorage.mk [⟨5, "a", 0⟩, ⟨9, "b", 2⟩] [(9, 1), (5, 0)]).objs[p]? = some t ∧
          t.Id = k) →
      [0, 1].Nodup) ∧
    newStorage.GetAll = ([], none) :=
  getAll_lists_every_task ⟨[⟨5, "a", 0⟩, ⟨9, "b", 2⟩], [(9, 1), (5, 0)]⟩ [0, 1]
    (List.Perm.swap 1 0 [])

/-- C19. Frame of writes: for two different ids `X` and `Y`, a call of `Add`
with a task whose `Id` is `X`, of `Delete X` or of `Update X`, whether it
succeeds or fails, leaves `Get Y` as it was.  `Add` and `Delete` write no task
object at all; `Update X` leaves every task object other than the one stored
under `X` untouched, and keeps the `Id` of that one.  So the task stored under
`Y`, being another task, keeps its title and status. -/
theorem writes_frame (storage : LocalStorage) (X Y : Nat) (hXY : Y ≠ X) :
    (∀ task t s' e, storage.objs[task]? = some t → t.Id = X →
      storage.Add task = some (s', e) →
      s'.Get Y = storage.Get Y ∧ s'.objs = storage.objs) ∧
    ((storage.Delete X).1.Get Y = storage.Get Y ∧ (storage.Delete X).1.objs = storage.objs) ∧
    (∀ title status s' e, storage.Update X title status = some (s', e) →
      s'.Get Y = storage.Get Y ∧
      (∀ q, mapGet storage.tasks X ≠ some q → s'.objs[q]? = storage.objs[q]?) ∧
      (∀ p t, mapGet storage.tasks X = some p → storage.objs[p]? = some t →
        ∃ t', s'.objs[p]? = some t' ∧ t'.Id = t.Id) ∧
      (∀ pX tX pY tY, mapGet storage.tasks X = some pX → storage.objs[pX]? = some tX →
        tX.Id = X → mapGet storage.tasks Y = some pY → storage.objs[pY]? = some tY →
        tY.Id = Y → s'.objs[pY]? = some tY)) := by
  refine ⟨?_, ?_, ?_⟩
  · intro task t s' e ht hid hadd
    subst hid
    cases hg : mapGet storage.tasks t.Id with
    | none =>
      rw [LocalStorage.Add_of_absent ht hg] at hadd
      simp only [Option.some.injEq, Prod.mk.injEq] at hadd
      rw [← hadd.1]
      simp [LocalStorage.Get, mapGet_mapSet_ne storage.tasks task hXY]
    | some q =>
      rw [LocalStorage.Add_of_present ht hg] at hadd
      simp only [Option.some.injEq, Prod.mk.injEq] at hadd
      rw [← hadd.1]
      exact ⟨rfl, rfl⟩
  · cases hg : mapGet storage.tasks X with
    | none => simp [LocalStorage.Delete_of_absent hg]
    | some q =>
      simp [LocalStorage.Delete_of_present hg, LocalStorage.Get,
        mapGet_mapDelete_ne storage.tasks hXY]
  · intro title status s' e hupd
    cases hg : mapGet storage.tasks X with
    | none =>
      rw [LocalStorage.Update_of_absent title status hg] at hupd
      simp only [Option.some.injEq, Prod.mk.injEq] at hupd
      rw [← hupd.1]
      refine ⟨rfl, fun _ _ => rfl, ?_, ?_⟩
      · intro p t hp
        simp at hp
      · intro pX tX pY tY hpX
        simp at hpX
    | some q =>
      cases hq : storage.objs[q]? with
      | none => simp [LocalStorage.Update, hg, hq] at hupd
      | some t0 =>
        have hlt : q < storage.objs.length := (List.getElem?_eq_some.mp hq).1
        rw [LocalStorage.Update_of_present title status hg hq] at hupd
        simp only [Option.some.injEq, Prod.mk.injEq] at hupd
        rw [← hupd.1]
        refine ⟨rfl, ?_, ?_, ?_⟩
        · intro q' hq'
          have hne : q ≠ q' := fun h => hq' (by rw [h])
          simp [List.getElem?_set_ne hne]
        · intro p t hp hpt
          have hpq : q = p := Option.some.inj hp
          subst hpq
          rw [hq] at hpt
          have htt : t0 = t := Option.some.inj hpt
          subst htt
          exact ⟨{ t0 with Title := title, Status := status }, by simp [hlt], rfl⟩
        · intro pX tX pY tY hpX htX hidX hpY htY hidY
          have hpq : q = pX := Option.some.inj hpX
          subst hpq
          have hne : q ≠ pY := by
            intro h
            subst h
            rw [htX] at htY
            have : tX = tY := Option.some.inj htY
            subst this
            exact hXY (hidY.symm.trans hidX)
          simp [List.getElem?_set_ne hne, htY]

theorem writes_frame_witness :
    (LocalStorage.mk [⟨5, "a", 0⟩, ⟨9, "b", 2⟩] [(9, 1), (5, 0)]).Update 5 "c" 1 =
        some (⟨[⟨5, "c", 1⟩, ⟨9, "b", 2⟩], [(9, 1), (5, 0)]⟩, none) ∧
    (LocalStorage.mk [⟨5, "c", 1⟩, ⟨9, "b", 2⟩] [(9, 1), (5, 0)]).Get 9 =
        (LocalStorage.mk [⟨5, "a", 0⟩, ⟨9, "b", 2⟩] [(9, 1), (5, 0)]).Get 9 ∧
    (LocalStorage.mk [⟨5, "c", 1⟩, ⟨9, "b", 2⟩] [(9, 1), (5, 0)]).objs[1]? =
        some ⟨9, "b", 2⟩ :=
  have h := (writes_frame ⟨[⟨5, "a", 0⟩, ⟨9, "b", 2⟩], [(9, 1), (5, 0)]⟩ 5 9 (by decide)).2.2
    "c" 1 ⟨[⟨5, "c", 1⟩, ⟨9, "b", 2⟩], [(9, 1), (5, 0)]⟩ none (by decide)
  ⟨by decide, h.1,
    h.2.2.2 0 ⟨5, "a", 0⟩ 1 ⟨9, "b", 2⟩ (by decide) (by decide) (by decide) (by decide)
      (by decide) (by decide)⟩

end Tasks
